import Mathlib

/-!
Verification of the KP astrology engine of this repository against its
design specification.

Shallow embedding conventions, used uniformly below:

* Python floats are modelled as exact rationals (`ℚ`).  Numeric literals
  such as `1e-9` become `1 / 10^9`.
* Instants are Julian-day numbers (`ℚ`), the continuous time scale the
  source converts every datetime to (`jd_from_datetime`).  The `start_iso`
  and `end_iso` fields of the source are ISO renderings of `start_jd` and
  `end_jd`; all comparisons the source performs on those strings (equal
  UTC offset, lexicographic) are modelled on the `_jd` fields, which order
  identically.  `timedelta.days` of a difference of two such datetimes is
  the floor of the Julian-day difference.
* Python dicts are modelled as association lists (`List (String × _)`,
  insertion order preserved, `List.lookup` = `dict.get`), and the
  accumulating house-weight dicts as total functions `String → ℚ` with
  default 0 (matching `wmap.get(h, 0.0)`).
* `list.index(x)` is `List.findIdx (· == x)`; every call site in the
  source reaches it with a member of the list.
* The ephemeris gateway (`swisseph`) is external to the design (spec §6):
  functions of the source that call it take the longitude it would return
  as an explicit argument.
* Python's float `%` with a positive modulus is `pythonMod` below
  (floor-based remainder), and `round(x, n)` is decimal rounding half to
  even (`pyRound`).
-/

namespace Vedic

/-- Vimśottarī sequence of the 9 lords, from `engine.py` (`VIM_SEQUENCE`). -/
def VIM_SEQUENCE : List String :=
  ["ketu", "venus", "sun", "moon", "mars", "rahu", "jupiter", "saturn", "mercury"]

/-- Lord weights in years, from `engine.py` (`VIM_DURATIONS_YEARS`); a key
the source never queries with is given weight 0 (the Python dict would
raise there). -/
def VIM_DURATIONS_YEARS : String → ℚ := fun s =>
  if s = "ketu" then 7
  else if s = "venus" then 20
  else if s = "sun" then 6
  else if s = "moon" then 10
  else if s = "mars" then 7
  else if s = "rahu" then 18
  else if s = "jupiter" then 16
  else if s = "saturn" then 19
  else if s = "mercury" then 17
  else 0

/-- Full cycle length (`VIM_TOTAL_YEARS = 120.0`). -/
def VIM_TOTAL_YEARS : ℚ := 120

/-- Days per year used by the dasha ladder (`ydays = 365.2425`). -/
def YDAYS : ℚ := 3652425 / 10000

/-- Width of one nakshatra (`NAK_SPAN_DEG = 360.0 / 27.0`). -/
def NAK_SPAN_DEG : ℚ := 360 / 27

/-- Zodiac signs (`SIGNS`). -/
def SIGNS : List String :=
  ["Aries", "Taurus", "Gemini", "Cancer", "Leo", "Virgo",
   "Libra", "Scorpio", "Sagittarius", "Capricorn", "Aquarius", "Pisces"]

/-- Sign rulers (`RULERS`), with the `.get(sign, "")` default of the
call sites. -/
def RULERS : String → String := fun s =>
  if s = "Aries" then "mars"
  else if s = "Taurus" then "venus"
  else if s = "Gemini" then "mercury"
  else if s = "Cancer" then "moon"
  else if s = "Leo" then "sun"
  else if s = "Virgo" then "mercury"
  else if s = "Libra" then "venus"
  else if s = "Scorpio" then "mars"
  else if s = "Sagittarius" then "jupiter"
  else if s = "Capricorn" then "saturn"
  else if s = "Aquarius" then "saturn"
  else if s = "Pisces" then "jupiter"
  else ""

/-- Python's float `%` for a positive modulus: `x - m * floor (x / m)`. -/
def pythonMod (x m : ℚ) : ℚ := x - m * ⌊x / m⌋

/-- Longitude normalization of `engine.py` (`normalize_deg`): `x % 360.0`,
then add 360 if negative. -/
def normalize_deg (x : ℚ) : ℚ :=
  let y := pythonMod x 360
  if y < 0 then y + 360 else y

/-- Sign of a longitude (`sign_from_longitude`). -/
def sign_from_longitude (lon : ℚ) : String :=
  SIGNS.getD (⌊normalize_deg lon / 30⌋).toNat ""

/-- Forward arc `a → b` in `[0, 360)` (`_arc` of `engine.py`). -/
def arc (a b : ℚ) : ℚ := pythonMod (normalize_deg b - normalize_deg a) 360

/-- Nakshatra lord at a longitude (`star_lord_at`):
`VIM_SEQUENCE[int(normalize_deg(lon) // NAK_SPAN_DEG) % 9]`. -/
def star_lord_at (lon : ℚ) : String :=
  VIM_SEQUENCE.getD ((⌊normalize_deg lon / NAK_SPAN_DEG⌋).toNat % 9) ""

/-- Scan of the sub-lord loop of `sub_lord_at`: walk the rotated sequence
keeping the cumulative fraction `cum`; return the first lord whose test
`cum <= f < cum + seg or abs(f - (cum + seg)) < 1e-12` passes. -/
def subScan (f : ℚ) : ℚ → List String → Option String
  | _, [] => none
  | cum, p :: rest =>
    let seg := VIM_DURATIONS_YEARS p / VIM_TOTAL_YEARS
    if (cum ≤ f ∧ f < cum + seg) ∨ |f - (cum + seg)| < 1 / 10 ^ 12 then some p
    else subScan f (cum + seg) rest

/-- KP sub-lord inside a nakshatra (`sub_lord_at` of `engine.py`): rotate
`VIM_SEQUENCE` to start at the nakshatra's star-lord, then scan the
Vimśottarī proportions; falls back to `seq[-1]` after the loop. -/
def sub_lord_at (lon : ℚ) : String :=
  let L := normalize_deg lon
  let n0 := (⌊L / NAK_SPAN_DEG⌋).toNat
  let f := (L - n0 * NAK_SPAN_DEG) / NAK_SPAN_DEG
  let star := VIM_SEQUENCE.getD (n0 % 9) ""
  let idx0 := VIM_SEQUENCE.findIdx (· == star)
  let seq := (List.range 9).map (fun i => VIM_SEQUENCE.getD ((idx0 + i) % 9) "")
  (subScan f 0 seq).getD ((seq.getLast?).getD "")

/-- Width of house `i` (0-based) in `house_num_of_lon`: the forward arc to
the next cusp for `i < 11`, and the remainder of the circle for the last
house. -/
def houseWidth (cusps : List ℚ) (i : ℕ) : ℚ :=
  if i < 11 then arc (cusps.getD i 0) (cusps.getD ((i + 1) % 12) 0)
  else 360 - ((List.range 11).map
    (fun j => arc (cusps.getD j 0) (cusps.getD ((j + 1) % 12) 0))).sum

/-- House number (1..12) containing a longitude (`house_num_of_lon` of
`engine.py`), given the 12 cusp longitudes; falls through to house 1. -/
def house_num_of_lon (lon : ℚ) (cusps : List ℚ) : ℕ :=
  let L := normalize_deg lon
  match (List.range 12).find? (fun i =>
      let a := cusps.getD i 0
      let w := houseWidth cusps i
      decide (arc a L < w ∨ |arc a L - w| < 1 / 10 ^ 12)) with
  | some i => i + 1
  | none => 1

/-- Natal snapshot (`NatalContext` of `engine.py`); `utc_birth_jd` is the
Julian day of `utc_birth_dt`. -/
structure NatalContext where
  utc_birth_jd : ℚ
  latitude : ℚ
  longitude : ℚ
  ascendant_deg : ℚ
  moon_sign : String
  planet_longitudes : List (String × ℚ)
  house_map : List (String × String)
  house_cusps_deg : List ℚ

/-- One top-level dasha period (`DashaPeriod`; the `_iso` fields are the
ISO renderings of the `_jd` fields and are not repeated here). -/
structure DashaPeriod where
  planet : String
  start_jd : ℚ
  end_jd : ℚ
deriving DecidableEq, Repr

/-- Dasha context (`DashaContext`); `window_from/to` are the Julian days
rendered by the source's ISO fields. -/
structure DashaContext where
  maha : Option String
  antara : Option String
  pratyantara : Option String
  window_from : ℚ
  window_to : ℚ
  periods : List DashaPeriod
deriving DecidableEq, Repr

/-- One block of the subdivided hierarchy: an element of the list of
dicts `subdivide_vimshottari` returns (`start_iso`/`end_iso` render the
`_jd` fields). -/
structure Block where
  level : String
  lord : String
  parent : Option String
  start_jd : ℚ
  end_jd : ℚ
deriving DecidableEq, Repr

/-- Houses whose cusp sign is ruled by the planet
(`planet_owned_houses` of `engine.py`). -/
def planet_owned_houses (natal : NatalContext) (planet : String) : List String :=
  (natal.house_map.filter (fun hs => RULERS hs.2 == planet.toLower)).map Prod.fst

/-- Moon's nakshatra index and fraction (`_moon_nakshatra_fraction`); the
Moon's sidereal longitude, which the source obtains from the external
ephemeris at `jd_ut`, is the explicit argument. -/
def moon_nakshatra_fraction (moon_lon : ℚ) : ℕ × ℚ :=
  let L := normalize_deg moon_lon
  let idx := (⌊L / NAK_SPAN_DEG⌋).toNat
  (idx, (L - idx * NAK_SPAN_DEG) / NAK_SPAN_DEG)

/-- While-loop of `compute_vimshottari_dasha_for_birth` rolling full
periods forward until `cur >= max_jd - 1e-6`.  The loop advances by at
least `6 * YDAYS` days per step over a window of `120 * YDAYS + 1` days,
so at most 21 iterations ever run; `fuel` is any bound at least that. -/
def dashaLadder (fuel : ℕ) (cur : ℚ) (seq_idx : ℕ) (max_jd : ℚ) : List DashaPeriod :=
  match fuel with
  | 0 => []
  | fuel + 1 =>
    if cur < max_jd - 1 / 10 ^ 6 then
      let lord := VIM_SEQUENCE.getD (seq_idx % 9) ""
      let span := VIM_DURATIONS_YEARS lord * YDAYS
      ⟨lord.capitalize, cur, cur + span⟩ :: dashaLadder fuel (cur + span) (seq_idx + 1) max_jd
    else []

/-- Vimśottarī mahadasha ladder rooted at birth
(`compute_vimshottari_dasha_for_birth` of `engine.py`): a truncated first
period for the Moon's nakshatra lord, then full periods forward to the
120-year horizon.  `moon_lon` is the Moon's longitude at `jd_ut` from the
external ephemeris. -/
def compute_vimshottari_dasha_for_birth (jd_ut moon_lon : ℚ) : DashaContext :=
  let nf := moon_nakshatra_fraction moon_lon
  let first_lord := VIM_SEQUENCE.getD (nf.1 % 9) ""
  let remaining_years := VIM_DURATIONS_YEARS first_lord * (1 - nf.2)
  let start := jd_ut
  let e := start + remaining_years * YDAYS
  let first : DashaPeriod := ⟨first_lord.capitalize, start, e⟩
  let max_jd := start + VIM_TOTAL_YEARS * YDAYS + 1
  let rest := dashaLadder 100 e ((VIM_SEQUENCE.findIdx (· == first_lord) + 1) % 9) max_jd
  { maha := some first.planet, antara := none, pratyantara := none,
    window_from := first.start_jd, window_to := first.end_jd,
    periods := first :: rest }

/-- Child-emitting loop shared by the antara and pratyantara passes of
`subdivide_vimshottari` (both engines): walk `seq` from `cursor`, give
each lord `m_len * weight/120`, clamp each end to `m_end` with `min`, and
stop early once `cursor >= m_end - eps` (`eps` is `1e-9` in `engine.py`
and `1e-6` in `engine_stub.py`). -/
def splitSpan (level parent : String) (m_len m_end eps : ℚ) :
    ℚ → List String → List Block
  | _, [] => []
  | cursor, lord :: rest =>
    let frac := VIM_DURATIONS_YEARS lord / VIM_TOTAL_YEARS
    let span := m_len * frac
    let a_end := min (cursor + span) m_end
    ⟨level, lord, some parent, cursor, a_end⟩ ::
      (if m_end - eps ≤ a_end then [] else splitSpan level parent m_len m_end eps a_end rest)

/-- Rotation of `VIM_SEQUENCE` used by `subdivide_vimshottari`:
`start_idx = VIM_SEQUENCE.index(lord)`, then
`[VIM_SEQUENCE[(start_idx + i) % 9] for i in range(9)]`. -/
def rotateAt (lord : String) : List String :=
  let idx0 := VIM_SEQUENCE.findIdx (· == lord)
  (List.range 9).map (fun i => VIM_SEQUENCE.getD ((idx0 + i) % 9) "")

/-- The maha block `add_block("maha", m_lord, m_start, m_end)` emits. -/
def mahaBlockOf (maha : DashaPeriod) : Block :=
  ⟨"maha", maha.planet.toLower, none, maha.start_jd, maha.end_jd⟩

/-- The antara blocks of one maha: the child loop over the sequence
rotated to the maha lord. -/
def antarasOf (maha : DashaPeriod) : List Block :=
  splitSpan "antara" maha.planet.toLower (maha.end_jd - maha.start_jd) maha.end_jd
    (1 / 10 ^ 9) maha.start_jd (rotateAt maha.planet.toLower)

/-- The pratyantara blocks of one antara block: the child loop over the
sequence rotated to that antara's own lord. -/
def pratysOf (a : Block) : List Block :=
  splitSpan "pratyantara" a.lord (a.end_jd - a.start_jd) a.end_jd (1 / 10 ^ 9)
    (a.start_jd) (rotateAt a.lord)

/-- The antara selection of the pratyantara pass: level `"antara"`,
parent equal to the maha lord, and start inside the maha's range with
`1e-9` slack. -/
def antaraFilter (maha : DashaPeriod) (x : Block) : Bool :=
  x.level == "antara" && x.parent == some maha.planet.toLower &&
    decide (maha.start_jd - 1 / 10 ^ 9 ≤ x.start_jd) &&
    decide (x.start_jd ≤ maha.end_jd + 1 / 10 ^ 9)

/-- Body of the `for maha in dasha_ctx.periods` loop of
`subdivide_vimshottari` (`engine.py`), appending to the accumulated
output list: the maha block, its antara blocks rotated to the maha lord,
and for each antara selected from the output so far (`antaraFilter`)
its pratyantara blocks rotated to that antara's lord. -/
def subdivideStep (levels : ℕ) (out : List Block) (maha : DashaPeriod) : List Block :=
  let out1 := out ++ [mahaBlockOf maha]
  if levels < 2 then out1 else
  let out2 := out1 ++ antarasOf maha
  if levels < 3 then out2 else
  out2 ++ (out2.filter (antaraFilter maha)).flatMap pratysOf

/-- Maha → antara → pratyantara subdivision (`subdivide_vimshottari` of
`engine.py`), over the period list of the dasha context. -/
def subdivide_vimshottari (periods : List DashaPeriod) (levels : ℕ) : List Block :=
  periods.foldl (subdivideStep levels) []

/-- Stub variant's loop body (`subdivide_vimshottari` of
`engine_stub.py`): identical to `subdivideStep` except that both child
passes use the unrotated `VIM_SEQUENCE` and the epsilon is `1e-6`. -/
def subdivideStepStub (levels : ℕ) (out : List Block) (maha : DashaPeriod) : List Block :=
  let m_lord := maha.planet.toLower
  let m_start := maha.start_jd
  let m_end := maha.end_jd
  let out1 := out ++ [⟨"maha", m_lord, none, m_start, m_end⟩]
  if levels < 2 then out1 else
  let m_len := m_end - m_start
  let antaras := splitSpan "antara" m_lord m_len m_end (1 / 10 ^ 6) m_start VIM_SEQUENCE
  let out2 := out1 ++ antaras
  if levels < 3 then out2 else
  let selected := out2.filter (fun x =>
    x.level == "antara" && x.parent == some m_lord &&
      decide (m_start - 1 / 10 ^ 6 ≤ x.start_jd) && decide (x.start_jd ≤ m_end + 1 / 10 ^ 6))
  out2 ++ selected.flatMap (fun a =>
    splitSpan "pratyantara" a.lord (a.end_jd - a.start_jd) a.end_jd (1 / 10 ^ 6)
      a.start_jd VIM_SEQUENCE)

/-- The stub engine's subdivision (`engine_stub.py`). -/
def subdivide_vimshottari_stub (periods : List DashaPeriod) (levels : ℕ) : List Block :=
  periods.foldl (subdivideStepStub levels) []

/-- Rotation invariant of claim C1 over a subdivision output: every maha
block has an antara child starting at its own start with its own lord as
both lord and parent, and every antara block likewise has such a
pratyantara child. -/
def rotationInv (out : List Block) : Prop :=
  (∀ b ∈ out, b.level = "maha" →
    ∃ a ∈ out, a.level = "antara" ∧ a.parent = some b.lord ∧
      a.start_jd = b.start_jd ∧ a.lord = b.lord) ∧
  (∀ a ∈ out, a.level = "antara" →
    ∃ c ∈ out, c.level = "pratyantara" ∧ c.parent = some a.lord ∧
      c.start_jd = a.start_jd ∧ c.lord = a.lord)

/-- The inner `add(houses, w)` of `planet_significators`: bump each house
of the list by `w` in the accumulating map. -/
def addW (m : String → ℚ) (houses : List String) (w : ℚ) : String → ℚ :=
  houses.foldl (fun acc hh => fun k => if k = hh then acc k + w else acc k) m

/-- House-weight map built for one planet by the body of the
`for p, p_lon in natal.planet_longitudes.items()` loop of
`planet_significators` (`engine.py`); `p` is already lowercased. -/
def wmapFor (natal : NatalContext) (p : String) (p_lon : ℚ) : String → ℚ :=
  let p_house := toString (house_num_of_lon p_lon natal.house_cusps_deg)
  let own_owned := planet_owned_houses natal p
  let s_lord := star_lord_at p_lon
  let zsign := sign_from_longitude p_lon
  let sign_lord := RULERS zsign
  let w0 : String → ℚ := fun _ => 0
  let w1 :=
    if s_lord ≠ "" then
      let wa :=
        match List.lookup s_lord natal.planet_longitudes with
        | some s_lon =>
            addW w0 [toString (house_num_of_lon s_lon natal.house_cusps_deg)] 3
        | none => w0
      addW wa (planet_owned_houses natal s_lord) 3
    else w0
  let w2 := addW (addW w1 [p_house] 2) own_owned 2
  if sign_lord ≠ "" then
    let wb :=
      match List.lookup sign_lord natal.planet_longitudes with
      | some s2_lon =>
          addW w2 [toString (house_num_of_lon s2_lon natal.house_cusps_deg)] 1
      | none => w2
    addW wb (planet_owned_houses natal sign_lord) 1
  else w2

/-- KP significator weights per planet (`planet_significators` of
`engine.py`). -/
def planet_significators (natal : NatalContext) : List (String × (String → ℚ)) :=
  natal.planet_longitudes.map (fun pl => (pl.1.toLower, wmapFor natal pl.1.toLower pl.2))

/-- Event policy record (`app/astrology/event_policies.py`). -/
structure EventPolicy where
  houses_pos : List String
  houses_neg : List String
  focus_planets : List (String × ℚ)
  age_min : ℚ
  age_max : ℚ

/-- The policy table `EVENT_POLICIES`. -/
def EVENT_POLICIES : String → Option EventPolicy := fun q =>
  if q = "marriage" then
    some ⟨["7", "2", "11"], ["1", "6", "10"],
      [("venus", 2), ("jupiter", 12 / 10), ("moon", 1)], 18, 70⟩
  else if q = "child" then
    some ⟨["5", "2", "11", "9"], ["1", "4", "10"],
      [("jupiter", 2), ("moon", 12 / 10), ("venus", 1)], 18, 55⟩
  else if q = "promotion" then
    some ⟨["10", "11", "2", "6"], ["12", "8"],
      [("saturn", 16 / 10), ("jupiter", 12 / 10), ("mercury", 1), ("sun", 8 / 10),
       ("mars", 6 / 10)], 20, 75⟩
  else if q = "travel" then
    some ⟨["12", "9", "3"], ["4", "2"],
      [("rahu", 16 / 10), ("jupiter", 12 / 10), ("mercury", 1), ("moon", 8 / 10)], 5, 90⟩
  else none

/-- Policy lookup of `select_dba_windows`:
`EVENT_POLICIES.get(question, EVENT_POLICIES["marriage"])`. -/
def policyFor (question : String) : EventPolicy :=
  (EVENT_POLICIES question).getD
    ⟨["7", "2", "11"], ["1", "6", "10"],
      [("venus", 2), ("jupiter", 12 / 10), ("moon", 1)], 18, 70⟩

/-- Round half to even (Python's `round` to 0 digits on an exact value). -/
def roundHalfEven (x : ℚ) : ℤ :=
  let n := ⌊x⌋
  let f := x - n
  if f < 1 / 2 then n else if 1 / 2 < f then n + 1 else if n % 2 = 0 then n else n + 1

/-- Python's `round(x, ndigits)` on an exact value. -/
def pyRound (x : ℚ) (ndigits : ℕ) : ℚ :=
  (roundHalfEven (x * 10 ^ ndigits) : ℚ) / 10 ^ ndigits

/-- Age in years of `_age_on` (`app/main.py`): the source parses the
window's ISO instant and takes `.days` of the difference from the birth
datetime, i.e. the floor of the Julian-day difference, over 365.2425. -/
def age_on (birth_jd x_jd : ℚ) : ℚ := (⌊x_jd - birth_jd⌋ : ℚ) / YDAYS

/-- Score of one lord (`_score_planet_for_event` of `app/main.py`):
positive-house sum minus 0.8 times the negative-house sum, plus half the
policy's focus weight. -/
def score_planet_for_event (sig : List (String × (String → ℚ))) (lord : String)
    (Hpos Hneg : List String) (focus : List (String × ℚ)) : ℚ :=
  let m := (List.lookup lord.toLower sig).getD (fun _ => 0)
  (Hpos.map m).sum - 8 / 10 * (Hneg.map m).sum
    + 1 / 2 * ((List.lookup lord.toLower focus).getD 0)

/-- One candidate row of `select_dba_windows` (the dict appended to
`rows`); `age_lo`/`age_hi` are the rounded `age_range` pair. -/
structure Row where
  score : ℚ
  maha : Block
  antara : Block
  praty : Option Block
  age_lo : ℚ
  age_hi : ℚ
deriving DecidableEq, Repr

/-- The (maha, antara, pratyantara) triples of `select_dba_windows`:
antaras matched to a maha by parent lord and start inside the maha,
pratyantaras likewise inside the antara; an antara with no pratyantara
yields a single triple with `none`. -/
def tripletsOf (subs : List Block) : List (Block × Block × Option Block) :=
  (subs.filter (fun s => s.level == "maha")).flatMap (fun m =>
    let A := subs.filter (fun a =>
      a.level == "antara" && a.parent == some m.lord &&
        decide (m.start_jd ≤ a.start_jd) && decide (a.start_jd < m.end_jd))
    A.flatMap (fun a =>
      let P := subs.filter (fun p =>
        p.level == "pratyantara" && p.parent == some a.lord &&
          decide (a.start_jd ≤ p.start_jd) && decide (p.start_jd < a.end_jd))
      if P.isEmpty then [(m, a, none)] else P.map (fun p => (m, a, some p))))

/-- Lexicographic Boolean order on score/distance keys, the sort key
`(-score, dist)` of `select_dba_windows`. -/
def lexLe2 (a b : ℚ × ℚ) : Bool :=
  decide (a.1 < b.1 ∨ (a.1 = b.1 ∧ a.2 ≤ b.2))

/-- Stable insertion of `x` into a sorted list: `x` goes before the
first element it compares `le` to, so earlier elements win ties. -/
def insertSorted (le : α → α → Bool) (x : α) : List α → List α
  | [] => [x]
  | y :: ys => if le x y then x :: y :: ys else y :: insertSorted le x ys

/-- Stable ascending sort, modelling Python's `sort`/`sorted` (also
stable): for a total preorder `le` every stable sort produces the same
list, and this structural version is one the kernel can evaluate. -/
def pySort (le : α → α → Bool) : List α → List α
  | [] => []
  | x :: xs => insertSorted le x (pySort le xs)

/-- One iteration of the scoring loop of `select_dba_windows`: `none`
when the triple's window fails the age filter, otherwise the row with
its rounded score `0.3*sM + 0.6*sA + 1.0*sP + 0.2-if-praty`. -/
def mkRowFor (natal : NatalContext) (pol : EventPolicy)
    (sig : List (String × (String → ℚ))) (t : Block × Block × Option Block) : Option Row :=
  let M := t.1
  let A := t.2.1
  let P := t.2.2
  let win := P.getD A
  let age_start := age_on natal.utc_birth_jd win.start_jd
  let age_end := age_on natal.utc_birth_jd win.end_jd
  if age_end < pol.age_min ∨ age_start > pol.age_max then none
  else
    some (⟨pyRound
        (3 / 10 * score_planet_for_event sig M.lord pol.houses_pos pol.houses_neg pol.focus_planets
          + 6 / 10 * score_planet_for_event sig A.lord pol.houses_pos pol.houses_neg pol.focus_planets
          + 1 * (match P with
                 | some p => score_planet_for_event sig p.lord pol.houses_pos pol.houses_neg
                     pol.focus_planets
                 | none => 0)
          + (match P with | some _ => 2 / 10 | none => 0)) 3,
      M, A, P, pyRound age_start 1, pyRound age_end 1⟩ : Row)

/-- Candidate windows ranked for an event (`select_dba_windows` of
`app/main.py`); `anchor_jd` is the parsed `anchor_iso`. -/
def select_dba_windows (natal : NatalContext) (periods : List DashaPeriod)
    (question : String) (direction : String) (anchor_jd : Option ℚ) : List Row :=
  let pol := policyFor question
  let sig := planet_significators natal
  let subs := subdivide_vimshottari periods 3
  let rows := (tripletsOf subs).filterMap (mkRowFor natal pol sig)
  let ranked :=
    match anchor_jd with
    | some ajd =>
      (pySort (fun (a b : (ℚ × ℚ) × Row) => lexLe2 a.1 b.1)
        (rows.map (fun (r : Row) =>
          ((-r.score, |(r.praty.getD r.antara).start_jd - ajd|), r)))).map Prod.snd
    | none =>
      (pySort (fun (a b : ℚ × Row) => decide (a.1 ≤ b.1))
        (rows.map (fun (r : Row) => (-r.score, r)))).map Prod.snd
  ranked.take 12

/-- Minimum plausible ages per question (`AGE_MIN` of `app/main.py`),
with the `.get(question, 16.0)` default. -/
def AGE_MIN : String → ℚ := fun q =>
  if q = "marriage" then 18
  else if q = "child" then 20
  else if q = "promotion" then 21
  else if q = "travel" then 12
  else 16

/-- Age in years at a Julian day (`age_years_at_jd` of `app/main.py`). -/
def age_years_at_jd (birth_jd jd : ℚ) : ℚ := max 0 ((jd - birth_jd) / YDAYS)

/-- Positive/negative target houses of `score_subperiod` (`TARGETS`),
with its default. -/
def TARGETS : String → List String × List String := fun q =>
  if q = "marriage" then (["7", "2", "11"], ["1", "6", "10"])
  else if q = "child" then (["5", "2", "11", "9"], ["1", "4", "10"])
  else if q = "promotion" then (["10", "11", "2", "6"], ["12", "8"])
  else if q = "travel" then (["12", "9", "3"], ["4", "2"])
  else (["7", "2", "11"], ["1", "6", "10"])

/-- KP-flavoured score of one subperiod (`score_subperiod` of
`app/main.py`): the subperiod lord at weight 1 plus its parent at 0.4,
each as positive-house sum minus 0.8 times the negative-house sum, plus
a small bonus per level. -/
def score_subperiod (natal : NatalContext) (sub : Block) (question : String) : ℚ :=
  let pn := TARGETS question.toLower
  let sig := planet_significators natal
  let l_sub := sub.lord.toLower
  let l_par := (sub.parent.getD "").toLower
  let planet_score := fun (pl : String) (k : ℚ) =>
    let m := (List.lookup pl sig).getD (fun _ => 0)
    k * ((pn.1.map m).sum - 8 / 10 * (pn.2.map m).sum)
  let s0 := planet_score l_sub 1
  let s1 := if l_par ≠ "" then s0 + planet_score l_par (4 / 10) else s0
  s1 + (if sub.level == "pratyantara" then 1 / 4
        else if sub.level == "antara" then 12 / 100 else 0)

/-- Python's `max(blocks, key=lambda x: x.start_jd)`: the first block of
maximal start (later blocks replace only on a strictly greater key). -/
def maxByStart (b0 : Block) (bs : List Block) : Block :=
  bs.foldl (fun best x => if best.start_jd < x.start_jd then x else best) b0

/-- Lexicographic Boolean order on the triple sort key
`(-score, days_from_anchor, start_jd)` of `predict_event`. -/
def lexLe3 (a b : ℚ × ℚ × ℚ) : Bool :=
  decide (a.1 < b.1 ∨ (a.1 = b.1 ∧ (a.2.1 < b.2.1 ∨ (a.2.1 = b.2.1 ∧ a.2.2 ≤ b.2.2))))

/-- Ranking and final choice of `predict_event`: sort the pool by
`(-score, days_from_anchor, start_jd)`; return the top, except for
`past`, where the latest start among the blocks within `1e-6` of the top
score wins; an empty pool falls back to `subs[0]`. -/
def rankAndChoose (natal : NatalContext) (question direction : String)
    (anchor_jd : ℚ) (subs pool : List Block) : Option Block :=
  let ranked :=
    (pySort (fun (a b : (ℚ × ℚ × ℚ) × Block) => lexLe3 a.1 b.1)
      (pool.map (fun s =>
        ((-score_subperiod natal s question, |s.start_jd - anchor_jd|, s.start_jd), s)))).map Prod.snd
  if direction == "past" then
    match ranked with
    | [] => subs.head?
    | r0 :: _ =>
      let top := score_subperiod natal r0 question
      let close := ranked.filter (fun s =>
        decide (|score_subperiod natal s question - top| < 1 / 10 ^ 6))
      match close with
      | [] => some r0
      | c0 :: cs => some (maxByStart c0 cs)
  else
    match ranked with
    | [] => subs.head?
    | r0 :: _ => some r0

/-- Direction filter of `predict_event`: `future` keeps blocks ending
after the anchor, `past` keeps blocks starting at or before it, anything
else keeps all. -/
def pe_dir_pool (subs : List Block) (direction : String) (anchor_jd : ℚ) : List Block :=
  if direction == "future" then subs.filter (fun s => decide (anchor_jd < s.end_jd))
  else if direction == "past" then subs.filter (fun s => decide (s.start_jd ≤ anchor_jd))
  else subs

/-- Age floor of `predict_event`, applied to the direction pool. -/
def pe_age_pool (natal : NatalContext) (question : String) (pool0 : List Block) : List Block :=
  pool0.filter (fun s =>
    decide (AGE_MIN question ≤ age_years_at_jd natal.utc_birth_jd s.start_jd))

/-- First fallback of `predict_event` when the filtered pool is empty:
the age floor is dropped, and the direction constraint survives only for
`future` (`direction != "future" or s end after anchor`). -/
def pe_relax_pool (subs : List Block) (direction : String) (anchor_jd : ℚ) : List Block :=
  subs.filter (fun s => direction != "future" || decide (anchor_jd < s.end_jd))

/-- Window selection of `predict_event` (`app/main.py`, after natal and
dasha construction): filter the level-3 subdivision by direction and age
floor, fall back first to the age-free pool (which keeps the direction
constraint only for `future`), then to the whole list; rank and choose
with `rankAndChoose`.  Returns the chosen block (`none` only when the
period list is empty, where the source raises an IndexError). -/
def predict_event_select (natal : NatalContext) (periods : List DashaPeriod)
    (question direction : String) (anchor_jd : ℚ) : Option Block :=
  let subs := subdivide_vimshottari periods 3
  let pool1 := pe_age_pool natal question (pe_dir_pool subs direction anchor_jd)
  let pool :=
    if pool1.isEmpty then
      let fb := pe_relax_pool subs direction anchor_jd
      if fb.isEmpty then subs else fb
    else pool1
  rankAndChoose natal question direction anchor_jd subs pool

/-- Scan for the sub-lord as the spec's words read (claim C4): the
sub-span of each lord is half-open, `[cum, cum + seg)`, and the first
sub-span containing the fractional offset wins. -/
def specScanHalfOpen (f : ℚ) : ℚ → List String → Option String
  | _, [] => none
  | cum, p :: rest =>
    let seg := VIM_DURATIONS_YEARS p / VIM_TOTAL_YEARS
    if f < cum + seg then some p else specScanHalfOpen f (cum + seg) rest

/-- Sub-lord as the spec's words read (claim C4): rotate the 9-lord
sequence to start at `cycleTable[floor(lon / (360/27)) mod 9]`, partition
the segment's fractional span 0..1 proportionally to the weights over
120, and return the lord of the half-open sub-span containing the
longitude's fractional offset. -/
def subLordSpecHalfOpen (lon : ℚ) : String :=
  let L := normalize_deg lon
  let n0 := (⌊L / NAK_SPAN_DEG⌋).toNat
  let f := (L - n0 * NAK_SPAN_DEG) / NAK_SPAN_DEG
  let seq := (List.range 9).map (fun i => VIM_SEQUENCE.getD ((n0 % 9 + i) % 9) "")
  (specScanHalfOpen f 0 seq).getD ((seq.getLast?).getD "")

/-- Scan for the sub-lord with the source's boundary tolerance: each
lord's sub-span is extended by `1e-12` at its top, so an offset exactly
at (or within `1e-12` above) a boundary resolves to the earlier lord. -/
def specScanTol (f : ℚ) : ℚ → List String → Option String
  | _, [] => none
  | cum, p :: rest =>
    let seg := VIM_DURATIONS_YEARS p / VIM_TOTAL_YEARS
    if f < cum + seg + 1 / 10 ^ 12 then some p else specScanTol f (cum + seg) rest

/-- Sub-lord as amended for claim C4: `subLordSpecHalfOpen` with the
boundary tolerance of `specScanTol`. -/
def subLordSpecTol (lon : ℚ) : String :=
  let L := normalize_deg lon
  let n0 := (⌊L / NAK_SPAN_DEG⌋).toNat
  let f := (L - n0 * NAK_SPAN_DEG) / NAK_SPAN_DEG
  let seq := (List.range 9).map (fun i => VIM_SEQUENCE.getD ((n0 % 9 + i) % 9) "")
  (specScanTol f 0 seq).getD ((seq.getLast?).getD "")

/-- Lord score as the claim C7 words read: positive-house sum minus 0.8
times the negative-house sum, plus the policy's per-body focus bonus for
that lord (at full weight). -/
def claimScoreS (sig : List (String × (String → ℚ))) (lord : String)
    (Hpos Hneg : List String) (focus : List (String × ℚ)) : ℚ :=
  let m := (List.lookup lord.toLower sig).getD (fun _ => 0)
  (Hpos.map m).sum - 8 / 10 * (Hneg.map m).sum
    + ((List.lookup lord.toLower focus).getD 0)

/-- Equal-house cusps used by the concrete test charts. -/
def cuspsFix : List ℚ := [0, 30, 60, 90, 120, 150, 180, 210, 240, 270, 300, 330]

/-- House→sign map of `cuspsFix` (what `compute_natal` derives from it). -/
def houseMapFix : List (String × String) :=
  [("1", "Aries"), ("2", "Taurus"), ("3", "Gemini"), ("4", "Cancer"),
   ("5", "Leo"), ("6", "Virgo"), ("7", "Libra"), ("8", "Scorpio"),
   ("9", "Sagittarius"), ("10", "Capricorn"), ("11", "Aquarius"), ("12", "Pisces")]

/-- Concrete natal chart used by the witnesses and counterexamples:
birth at Julian day 0 with equal houses and fixed sidereal longitudes
(ketu = rahu + 180, as `compute_natal` derives it). -/
def natalFix : NatalContext :=
  { utc_birth_jd := 0, latitude := 0, longitude := 0, ascendant_deg := 0,
    moon_sign := "Taurus",
    planet_longitudes :=
      [("sun", 10), ("moon", 40), ("mercury", 70), ("venus", 190), ("mars", 100),
       ("jupiter", 160), ("saturn", 220), ("rahu", 310), ("ketu", 130)],
    house_map := houseMapFix,
    house_cusps_deg := cuspsFix }

/-- Total weight of a list of lords. -/
def wsum (xs : List String) : ℚ := (xs.map VIM_DURATIONS_YEARS).sum

/-- Single 7-year Ketu mahadasha starting at the birth instant (Julian
day 0), for the `predict_event` scenario. -/
def periodsKetu0 : List DashaPeriod := [⟨"Ketu", 0, 7 * YDAYS⟩]

/-- Single 7-year Ketu mahadasha starting at Julian day 7000 (age about
19), for the `select_dba_windows` scenario. -/
def periodsKetu7000 : List DashaPeriod := [⟨"Ketu", 7000, 7000 + 7 * YDAYS⟩]

/-- Top-ranked row of
`select_dba_windows natalFix periodsKetu7000 "marriage" "nearest" none`:
the venus pratyantara of the venus antara. -/
def rowFixA : Row :=
  { score := 519 / 25,
    maha := ⟨"maha", "ketu", none, 7000, 3822679 / 400⟩,
    antara := ⟨"antara", "venus", some "ketu", 114386251 / 16000, 121204111 / 16000⟩,
    praty := some ⟨"pratyantara", "venus", some "venus", 114386251 / 16000, 115522561 / 16000⟩,
    age_lo := 98 / 5, age_hi := 99 / 5 }

/-- Second-ranked row of the same query: the venus pratyantara of the
moon antara. -/
def rowFixB : Row :=
  { score := 903 / 50,
    maha := ⟨"maha", "ketu", none, 7000, 3822679 / 400⟩,
    antara := ⟨"antara", "moon", some "ketu", 123249469 / 16000, 126658399 / 16000⟩,
    praty := some ⟨"pratyantara", "venus", some "moon", 50367919 / 6400, 50595181 / 6400⟩,
    age_lo := 43 / 2, age_hi := 108 / 5 }

theorem pythonMod_eq_fract (x : ℚ) : pythonMod x 360 = 360 * Int.fract (x / 360) := by
  unfold pythonMod Int.fract
  have h : (360 : ℚ) * (x / 360) = x := by ring
  rw [mul_sub, h]

theorem pythonMod_360_nonneg (x : ℚ) : 0 ≤ pythonMod x 360 := by
  rw [pythonMod_eq_fract]
  exact mul_nonneg (by norm_num) (Int.fract_nonneg _)

theorem normalize_deg_nonneg (x : ℚ) : 0 ≤ normalize_deg x := by
  unfold normalize_deg
  have h := pythonMod_360_nonneg x
  simp only [h.not_lt, if_false]
  exact h

theorem normalize_deg_lt (x : ℚ) : normalize_deg x < 360 := by
  unfold normalize_deg
  have h := pythonMod_360_nonneg x
  have h2 : pythonMod x 360 < 360 := by
    rw [pythonMod_eq_fract]
    have := Int.fract_lt_one (x / 360)
    linarith
  simp only [h.not_lt, if_false]
  exact h2

theorem normalize_deg_of_mem (x : ℚ) (h0 : 0 ≤ x) (h1 : x < 360) : normalize_deg x = x := by
  have hf : ⌊x / 360⌋ = 0 := by
    rw [Int.floor_eq_zero_iff]
    constructor
    · positivity
    · rw [div_lt_one (by norm_num : (0:ℚ) < 360)]
      simpa using h1
  unfold normalize_deg pythonMod
  rw [hf]
  simp [h0.not_lt]

/-- Claim C6: for every longitude, `normalize_deg` lands in `[0, 360)`
and is idempotent. -/
theorem normalize_deg_range_idem (L : ℚ) :
    0 ≤ normalize_deg L ∧ normalize_deg L < 360 ∧
      normalize_deg (normalize_deg L) = normalize_deg L :=
  ⟨normalize_deg_nonneg L, normalize_deg_lt L,
    normalize_deg_of_mem _ (normalize_deg_nonneg L) (normalize_deg_lt L)⟩

theorem find_succ_bound (p : ℕ → Bool) :
    1 ≤ (match (List.range 12).find? p with | some i => i + 1 | none => 1) ∧
      (match (List.range 12).find? p with | some i => i + 1 | none => 1) ≤ 12 := by
  cases hfind : (List.range 12).find? p with
  | none => simp [hfind]
  | some i =>
    have : i < 12 := List.mem_range.mp (List.mem_of_find?_eq_some hfind)
    simp only [hfind]
    show 1 ≤ i + 1 ∧ i + 1 ≤ 12
    omega

/-- Claim C9: the house lookup is total and always answers a house
number between 1 and 12, for any longitude and any 12-cusp list. -/
theorem house_num_of_lon_bounds (lon : ℚ) (cusps : List ℚ) (hlen : cusps.length = 12) :
    1 ≤ house_num_of_lon lon cusps ∧ house_num_of_lon lon cusps ≤ 12 := by
  clear hlen
  exact find_succ_bound _

theorem house_num_of_lon_bounds_witness :
    ([0, 30, 60, 90, 120, 150, 180, 210, 240, 270, 300, 330] : List ℚ).length = 12 ∧
      1 ≤ house_num_of_lon 195 [0, 30, 60, 90, 120, 150, 180, 210, 240, 270, 300, 330] ∧
      house_num_of_lon 195 [0, 30, 60, 90, 120, 150, 180, 210, 240, 270, 300, 330] ≤ 12 :=
  ⟨by decide, house_num_of_lon_bounds 195 _ (by decide)⟩

/-- Claim C3: the first top-level dasha period starts at birth, is owned
by the lord of the Moon's nakshatra (`VIM_SEQUENCE[idx % 9]`), and lasts
`(1 - frac) * weight[lord]` years (so the full weight exactly when
`frac = 0`). -/
theorem first_maha_truncated (jd moon_lon : ℚ) :
    ∃ p, (compute_vimshottari_dasha_for_birth jd moon_lon).periods.head? = some p ∧
      p.planet =
        (VIM_SEQUENCE.getD ((moon_nakshatra_fraction moon_lon).1 % 9) "").capitalize ∧
      p.start_jd = jd ∧
      p.end_jd - p.start_jd =
        (1 - (moon_nakshatra_fraction moon_lon).2) *
          VIM_DURATIONS_YEARS
            (VIM_SEQUENCE.getD ((moon_nakshatra_fraction moon_lon).1 % 9) "") * YDAYS := by
  refine ⟨_, rfl, rfl, rfl, ?_⟩
  show jd +
      VIM_DURATIONS_YEARS
          (VIM_SEQUENCE.getD ((moon_nakshatra_fraction moon_lon).1 % 9) "") *
        (1 - (moon_nakshatra_fraction moon_lon).2) * YDAYS - jd = _
  ring

theorem findIdx_getD_vim : ∀ k, k < 9 →
    VIM_SEQUENCE.findIdx (· == VIM_SEQUENCE.getD k "") = k := by decide

theorem subScan_eq_specScanTol (f : ℚ) :
    ∀ (seq : List String) (cum : ℚ), cum ≤ f →
      subScan f cum seq = specScanTol f cum seq := by
  intro seq
  induction seq with
  | nil => intro cum _; rfl
  | cons p rest ih =>
    intro cum hc
    unfold subScan specScanTol
    set seg := VIM_DURATIONS_YEARS p / VIM_TOTAL_YEARS with hseg
    have hiff : ((cum ≤ f ∧ f < cum + seg) ∨ |f - (cum + seg)| < 1 / 10 ^ 12) ↔
        f < cum + seg + 1 / 10 ^ 12 := by
      constructor
      · rintro (⟨_, h2⟩ | h3)
        · linarith
        · have := (abs_lt.mp h3).2
          linarith
      · intro h
        by_cases h2 : f < cum + seg
        · exact Or.inl ⟨hc, h2⟩
        · refine Or.inr (abs_lt.mpr ⟨?_, ?_⟩) <;> linarith [not_lt.mp h2]
    by_cases h : f < cum + seg + 1 / 10 ^ 12
    · rw [if_pos (hiff.mpr h), if_pos h]
    · rw [if_neg (fun hx => h (hiff.mp hx)), if_neg h]
      exact ih (cum + seg) (by linarith [not_lt.mp h])

theorem nakshatra_fraction_nonneg (L : ℚ) (h0 : 0 ≤ L) :
    0 ≤ (L - ((⌊L / NAK_SPAN_DEG⌋).toNat : ℚ) * NAK_SPAN_DEG) / NAK_SPAN_DEG := by
  have hspan : (0 : ℚ) < NAK_SPAN_DEG := by norm_num [NAK_SPAN_DEG]
  have hfl : (0 : ℤ) ≤ ⌊L / NAK_SPAN_DEG⌋ :=
    Int.floor_nonneg.mpr (div_nonneg h0 hspan.le)
  have hcast : ((⌊L / NAK_SPAN_DEG⌋.toNat : ℕ) : ℚ) = ((⌊L / NAK_SPAN_DEG⌋ : ℤ) : ℚ) := by
    exact_mod_cast Int.toNat_of_nonneg hfl
  have hle : ((⌊L / NAK_SPAN_DEG⌋ : ℤ) : ℚ) * NAK_SPAN_DEG ≤ L := by
    have h1 : ((⌊L / NAK_SPAN_DEG⌋ : ℤ) : ℚ) ≤ L / NAK_SPAN_DEG := Int.floor_le _
    calc ((⌊L / NAK_SPAN_DEG⌋ : ℤ) : ℚ) * NAK_SPAN_DEG
        ≤ (L / NAK_SPAN_DEG) * NAK_SPAN_DEG := mul_le_mul_of_nonneg_right h1 hspan.le
      _ = L := div_mul_cancel₀ L hspan.ne'
  apply div_nonneg _ hspan.le
  rw [hcast]
  linarith

/-- Claim C4 (amended): `sub_lord_at` agrees everywhere with the
spec-worded sub-lord computation once each proportional sub-span is
extended by the source's boundary tolerance of `1e-12` (an offset at or
within `1e-12` above a sub-span boundary resolves to the earlier lord). -/
theorem sub_lord_at_eq_spec_tol (lon : ℚ) : sub_lord_at lon = subLordSpecTol lon := by
  have hk : (⌊normalize_deg lon / NAK_SPAN_DEG⌋).toNat % 9 < 9 := Nat.mod_lt _ (by norm_num)
  have hf := nakshatra_fraction_nonneg (normalize_deg lon) (normalize_deg_nonneg lon)
  simp only [sub_lord_at, subLordSpecTol]
  rw [findIdx_getD_vim _ hk]
  rw [subScan_eq_specScanTol _ _ _ hf]

/-- Claim C4 (counterexample): at longitude `7/9` the fractional offset
inside nakshatra 0 is exactly `7/120`, the boundary between the ketu and
venus sub-spans; the half-open partition of the spec puts it in the
venus sub-span, but `sub_lord_at` answers ketu. -/
theorem sub_lord_at_ne_spec_halfopen :
    sub_lord_at (7 / 9) = "ketu" ∧ subLordSpecHalfOpen (7 / 9) = "venus" ∧
      sub_lord_at (7 / 9) ≠ subLordSpecHalfOpen (7 / 9) := by decide!

theorem wsum_nil : wsum [] = 0 := rfl

theorem wsum_cons (x : String) (xs : List String) :
    wsum (x :: xs) = VIM_DURATIONS_YEARS x + wsum xs := by simp [wsum]

theorem wsum_nonneg (xs : List String) (h : ∀ x ∈ xs, 6 ≤ VIM_DURATIONS_YEARS x) :
    0 ≤ wsum xs := by
  induction xs with
  | nil => norm_num [wsum]
  | cons x t ih =>
    rw [wsum_cons]
    have h1 := h x (List.mem_cons_self x t)
    have h2 := ih (fun y hy => h y (List.mem_cons_of_mem x hy))
    linarith

theorem vim_dur_ge6 : ∀ x ∈ VIM_SEQUENCE, 6 ≤ VIM_DURATIONS_YEARS x := by decide!

theorem wsum_vim : wsum VIM_SEQUENCE = 120 := by decide!

theorem splitSpan_struct (level parent : String) (m_len m_end eps : ℚ)
    (he : 0 < eps) (hm : 20 * eps < m_len) :
    ∀ (seq : List String) (cursor : ℚ),
      (∀ x ∈ seq, 6 ≤ VIM_DURATIONS_YEARS x) →
      wsum seq ≤ 120 →
      cursor = m_end - m_len * wsum seq / 120 →
      (splitSpan level parent m_len m_end eps cursor seq).length = seq.length ∧
        List.Chain' (fun a b => a.end_jd = b.start_jd)
          (splitSpan level parent m_len m_end eps cursor seq) ∧
        (splitSpan level parent m_len m_end eps cursor seq).head?.map Block.start_jd
          = seq.head?.map (fun _ => cursor) ∧
        ((splitSpan level parent m_len m_end eps cursor seq).getLast?).map Block.end_jd
          = seq.getLast?.map (fun _ => m_end) ∧
        (∀ b ∈ splitSpan level parent m_len m_end eps cursor seq,
          b.start_jd ≤ b.end_jd) ∧
        ((splitSpan level parent m_len m_end eps cursor seq).map
            (fun b => b.end_jd - b.start_jd)).sum = m_len * wsum seq / 120 := by
  have hml : 0 < m_len := by
    have : (0 : ℚ) < 20 * eps := by positivity
    linarith
  intro seq
  induction seq with
  | nil =>
    intro cursor _ _ _
    refine ⟨rfl, List.chain'_nil, rfl, rfl, by intro b hb; simp [splitSpan] at hb, ?_⟩
    show (0 : ℚ) = m_len * wsum [] / 120
    rw [wsum_nil]
    ring
  | cons x rest ih =>
    intro cursor hd hw hc
    have hdx : 6 ≤ VIM_DURATIONS_YEARS x := hd x (List.mem_cons_self x rest)
    have hwr0 : 0 ≤ wsum rest :=
      wsum_nonneg rest (fun y hy => hd y (List.mem_cons_of_mem x hy))
    have hce : cursor + m_len * (VIM_DURATIONS_YEARS x / VIM_TOTAL_YEARS)
        = m_end - m_len * wsum rest / 120 := by
      rw [hc, wsum_cons]
      simp only [VIM_TOTAL_YEARS]
      ring
    have hcm : cursor + m_len * (VIM_DURATIONS_YEARS x / VIM_TOTAL_YEARS) ≤ m_end := by
      rw [hce]
      have h0 : 0 ≤ m_len * wsum rest / 120 := by positivity
      linarith
    have hmin : min (cursor + m_len * (VIM_DURATIONS_YEARS x / VIM_TOTAL_YEARS)) m_end
        = cursor + m_len * (VIM_DURATIONS_YEARS x / VIM_TOTAL_YEARS) := min_eq_left hcm
    have hspan0 : 0 ≤ m_len * (VIM_DURATIONS_YEARS x / VIM_TOTAL_YEARS) := by
      simp only [VIM_TOTAL_YEARS]
      have : (0 : ℚ) ≤ VIM_DURATIONS_YEARS x := by linarith
      positivity
    have hfold : splitSpan level parent m_len m_end eps cursor (x :: rest) =
        (⟨level, x, some parent, cursor,
            min (cursor + m_len * (VIM_DURATIONS_YEARS x / VIM_TOTAL_YEARS)) m_end⟩ : Block) ::
          (if m_end - eps ≤
              min (cursor + m_len * (VIM_DURATIONS_YEARS x / VIM_TOTAL_YEARS)) m_end then []
           else splitSpan level parent m_len m_end eps
              (min (cursor + m_len * (VIM_DURATIONS_YEARS x / VIM_TOTAL_YEARS)) m_end) rest) :=
      rfl
    rw [hfold, hmin]
    cases rest with
    | nil =>
      have hend : cursor + m_len * (VIM_DURATIONS_YEARS x / VIM_TOTAL_YEARS) = m_end := by
        rw [hce, wsum_nil]
        ring
      have hbreak : m_end - eps ≤ cursor + m_len * (VIM_DURATIONS_YEARS x / VIM_TOTAL_YEARS) := by
        rw [hend]
        linarith
      rw [if_pos hbreak]
      refine ⟨rfl, List.chain'_singleton _, rfl, ?_, ?_, ?_⟩
      · simp [hend]
      · intro b hb
        simp only [List.mem_singleton] at hb
        subst hb
        show cursor ≤ cursor + m_len * (VIM_DURATIONS_YEARS x / VIM_TOTAL_YEARS)
        linarith
      · show cursor + m_len * (VIM_DURATIONS_YEARS x / VIM_TOTAL_YEARS) - cursor + 0
            = m_len * wsum [x] / 120
        rw [wsum_cons, wsum_nil]
        simp only [VIM_TOTAL_YEARS]
        ring
    | cons y t =>
      have hwr6 : 6 ≤ wsum (y :: t) := by
        rw [wsum_cons]
        have h1 := hd y (List.mem_cons_of_mem x (List.mem_cons_self y t))
        have h2 := wsum_nonneg t
          (fun z hz => hd z (List.mem_cons_of_mem x (List.mem_cons_of_mem y hz)))
        linarith
      have hnb : ¬ (m_end - eps ≤ cursor + m_len * (VIM_DURATIONS_YEARS x / VIM_TOTAL_YEARS)) := by
        rw [hce, not_le]
        have h6 : m_len * 6 ≤ m_len * wsum (y :: t) :=
          mul_le_mul_of_nonneg_left hwr6 hml.le
        have : eps < m_len * wsum (y :: t) / 120 := by linarith
        linarith
      rw [if_neg hnb]
      have hw2 : wsum (y :: t) ≤ 120 := by
        rw [wsum_cons] at hw
        linarith
      obtain ⟨ihlen, ihchain, ihhead, ihlast, ihmem, ihsum⟩ :=
        ih (cursor + m_len * (VIM_DURATIONS_YEARS x / VIM_TOTAL_YEARS))
          (fun y hy => hd y (List.mem_cons_of_mem x hy)) hw2 hce
      obtain ⟨c, l2, hcl⟩ : ∃ c l2,
          splitSpan level parent m_len m_end eps
            (cursor + m_len * (VIM_DURATIONS_YEARS x / VIM_TOTAL_YEARS)) (y :: t) = c :: l2 := by
        cases hsp : splitSpan level parent m_len m_end eps
            (cursor + m_len * (VIM_DURATIONS_YEARS x / VIM_TOTAL_YEARS)) (y :: t) with
        | nil => rw [hsp] at ihlen; simp at ihlen
        | cons c l2 => exact ⟨c, l2, rfl⟩
      have hcstart : c.start_jd = cursor + m_len * (VIM_DURATIONS_YEARS x / VIM_TOTAL_YEARS) := by
        rw [hcl] at ihhead
        simpa using ihhead
      refine ⟨?_, ?_, rfl, ?_, ?_, ?_⟩
      · simp only [List.length_cons, ihlen]
      · rw [hcl]
        exact List.Chain'.cons (by simpa using hcstart.symm) (hcl ▸ ihchain)
      · rw [hcl, List.getLast?_cons_cons]
        rw [hcl] at ihlast
        simpa using ihlast
      · intro b hb
        rcases List.mem_cons.mp hb with hb1 | hb2
        · subst hb1
          show cursor ≤ cursor + m_len * (VIM_DURATIONS_YEARS x / VIM_TOTAL_YEARS)
          linarith
        · exact ihmem b hb2
      · show cursor + m_len * (VIM_DURATIONS_YEARS x / VIM_TOTAL_YEARS) - cursor +
            ((splitSpan level parent m_len m_end eps
                (cursor + m_len * (VIM_DURATIONS_YEARS x / VIM_TOTAL_YEARS)) (y :: t)).map
              (fun b => b.end_jd - b.start_jd)).sum = m_len * wsum (x :: y :: t) / 120
        rw [ihsum]
        simp only [wsum_cons, VIM_TOTAL_YEARS]
        ring

/-- Claim C2: partitioning any span by the 9-lord weighted cycle (the
loop shared by the antara and pratyantara passes of both engines) yields
9 children that start at the parent's start, are contiguous with no gaps
(each child's end is the next child's start) and non-overlapping, whose
final end is clamped to the parent's end, and whose durations sum to the
parent's duration within `1e-6`; the parent must merely be longer than
20 times the break epsilon (2e-8 days for `engine.py`'s `1e-9`). -/
theorem splitSpan_partition (level parent : String) (seq : List String) (ms me eps : ℚ)
    (hperm : seq.Perm VIM_SEQUENCE) (he : 0 < eps) (hm : 20 * eps < me - ms) :
    (splitSpan level parent (me - ms) me eps ms seq).length = 9 ∧
      (splitSpan level parent (me - ms) me eps ms seq).head?.map Block.start_jd = some ms ∧
      List.Chain' (fun a b => a.end_jd = b.start_jd)
        (splitSpan level parent (me - ms) me eps ms seq) ∧
      (∀ b ∈ splitSpan level parent (me - ms) me eps ms seq, b.start_jd ≤ b.end_jd) ∧
      ((splitSpan level parent (me - ms) me eps ms seq).getLast?).map Block.end_jd = some me ∧
      |((splitSpan level parent (me - ms) me eps ms seq).map
          (fun b => b.end_jd - b.start_jd)).sum - (me - ms)| ≤ 1 / 10 ^ 6 := by
  have hd : ∀ x ∈ seq, 6 ≤ VIM_DURATIONS_YEARS x :=
    fun x hx => vim_dur_ge6 x (hperm.subset hx)
  have hw : wsum seq = 120 := by
    have : (seq.map VIM_DURATIONS_YEARS).sum = (VIM_SEQUENCE.map VIM_DURATIONS_YEARS).sum :=
      (hperm.map VIM_DURATIONS_YEARS).sum_eq
    rw [wsum, this, ← wsum, wsum_vim]
  have hlen : seq.length = 9 := hperm.length_eq
  have hne : seq ≠ [] := by
    intro h
    rw [h] at hlen
    simp at hlen
  have hc : ms = me - (me - ms) * wsum seq / 120 := by
    rw [hw]
    ring
  obtain ⟨slen, schain, shead, slast, smem, ssum⟩ :=
    splitSpan_struct level parent (me - ms) me eps he hm seq ms hd (le_of_eq hw) hc
  refine ⟨slen.trans hlen, ?_, schain, smem, ?_, ?_⟩
  · rw [shead]
    cases seq with
    | nil => exact absurd rfl hne
    | cons a l => rfl
  · rw [slast]
    cases hgl : seq.getLast? with
    | none => exact absurd (List.getLast?_eq_none_iff.mp hgl) hne
    | some a => rfl
  · rw [ssum, hw]
    have : (me - ms) * 120 / 120 - (me - ms) = 0 := by ring
    rw [this]
    norm_num

theorem splitSpan_partition_witness :
    (VIM_SEQUENCE.Perm VIM_SEQUENCE ∧ (0 : ℚ) < 1 / 10 ^ 9 ∧
        20 * (1 / 10 ^ 9) < (120 : ℚ) - 0) ∧
      ((splitSpan "antara" "ketu" ((120 : ℚ) - 0) 120 (1 / 10 ^ 9) 0 VIM_SEQUENCE).length = 9 ∧
        (splitSpan "antara" "ketu" ((120 : ℚ) - 0) 120 (1 / 10 ^ 9) 0
            VIM_SEQUENCE).head?.map Block.start_jd = some 0 ∧
        List.Chain' (fun a b => a.end_jd = b.start_jd)
          (splitSpan "antara" "ketu" ((120 : ℚ) - 0) 120 (1 / 10 ^ 9) 0 VIM_SEQUENCE) ∧
        (∀ b ∈ splitSpan "antara" "ketu" ((120 : ℚ) - 0) 120 (1 / 10 ^ 9) 0 VIM_SEQUENCE,
          b.start_jd ≤ b.end_jd) ∧
        ((splitSpan "antara" "ketu" ((120 : ℚ) - 0) 120 (1 / 10 ^ 9) 0
            VIM_SEQUENCE).getLast?).map Block.end_jd = some 120 ∧
        |((splitSpan "antara" "ketu" ((120 : ℚ) - 0) 120 (1 / 10 ^ 9) 0 VIM_SEQUENCE).map
            (fun b => b.end_jd - b.start_jd)).sum - ((120 : ℚ) - 0)| ≤ 1 / 10 ^ 6) :=
  ⟨⟨List.Perm.refl _, by decide!, by decide!⟩,
    splitSpan_partition "antara" "ketu" VIM_SEQUENCE 0 120 (1 / 10 ^ 9)
      (List.Perm.refl _) (by decide!) (by decide!)⟩

/-- Claim C10: the window selector never returns more than 12 rows. -/
theorem select_dba_windows_at_most_12 (natal : NatalContext) (periods : List DashaPeriod)
    (question direction : String) (anchor_jd : Option ℚ) :
    (select_dba_windows natal periods question direction anchor_jd).length ≤ 12 := by
  cases anchor_jd with
  | none => exact (List.length_take_le 12 _)
  | some a => exact (List.length_take_le 12 _)

theorem vim_getd_mem : ∀ m, m < 9 → VIM_SEQUENCE.getD m "" ∈ VIM_SEQUENCE := by decide

theorem rotateAt_mem (l : String) : ∀ x ∈ rotateAt l, x ∈ VIM_SEQUENCE := by
  intro x hx
  simp only [rotateAt, List.mem_map] at hx
  obtain ⟨i, _, hx⟩ := hx
  rw [← hx]
  exact vim_getd_mem _ (Nat.mod_lt _ (by norm_num))

theorem rotateAt_head_all : ∀ x ∈ VIM_SEQUENCE, (rotateAt x).head? = some x := by decide

theorem rotateAt_head (l : String) (hl : l ∈ VIM_SEQUENCE) : ∃ rest, rotateAt l = l :: rest := by
  have h2 := rotateAt_head_all l hl
  cases hr : rotateAt l with
  | nil => rw [hr] at h2; simp at h2
  | cons a r =>
    rw [hr] at h2
    simp only [List.head?_cons, Option.some.injEq] at h2
    exact ⟨r, by rw [h2]⟩

theorem splitSpan_cons (lvl par : String) (ml me eps cursor : ℚ) (x : String)
    (rest : List String) :
    splitSpan lvl par ml me eps cursor (x :: rest) =
      (⟨lvl, x, some par, cursor,
          min (cursor + ml * (VIM_DURATIONS_YEARS x / VIM_TOTAL_YEARS)) me⟩ : Block) ::
        (if me - eps ≤ min (cursor + ml * (VIM_DURATIONS_YEARS x / VIM_TOTAL_YEARS)) me then []
         else splitSpan lvl par ml me eps
            (min (cursor + ml * (VIM_DURATIONS_YEARS x / VIM_TOTAL_YEARS)) me) rest) := rfl

theorem splitSpan_level (lvl par : String) (ml me eps : ℚ) :
    ∀ (seq : List String) (cursor : ℚ), ∀ b ∈ splitSpan lvl par ml me eps cursor seq,
      b.level = lvl ∧ b.parent = some par ∧ b.lord ∈ seq := by
  intro seq
  induction seq with
  | nil => intro cursor b hb; simp [splitSpan] at hb
  | cons x rest ih =>
    intro cursor b hb
    rw [splitSpan_cons] at hb
    rcases List.mem_cons.mp hb with hb1 | hb2
    · subst hb1
      exact ⟨rfl, rfl, List.mem_cons_self x rest⟩
    · by_cases hbr : me - eps ≤ min (cursor + ml * (VIM_DURATIONS_YEARS x / VIM_TOTAL_YEARS)) me
      · rw [if_pos hbr] at hb2
        simp at hb2
      · rw [if_neg hbr] at hb2
        obtain ⟨hl, hp, hm⟩ := ih _ b hb2
        exact ⟨hl, hp, List.mem_cons_of_mem x hm⟩

theorem splitSpan_range (lvl par : String) (ml me eps : ℚ) (hml : 0 ≤ ml) :
    ∀ (seq : List String) (cursor : ℚ), cursor ≤ me →
      (∀ x ∈ seq, 0 ≤ VIM_DURATIONS_YEARS x) →
      ∀ b ∈ splitSpan lvl par ml me eps cursor seq,
        cursor ≤ b.start_jd ∧ b.start_jd ≤ me := by
  intro seq
  induction seq with
  | nil => intro cursor _ _ b hb; simp [splitSpan] at hb
  | cons x rest ih =>
    intro cursor hcme hd b hb
    have hspan0 : 0 ≤ ml * (VIM_DURATIONS_YEARS x / VIM_TOTAL_YEARS) := by
      have hx := hd x (List.mem_cons_self x rest)
      simp only [VIM_TOTAL_YEARS]
      positivity
    rw [splitSpan_cons] at hb
    rcases List.mem_cons.mp hb with hb1 | hb2
    · subst hb1
      exact ⟨le_refl _, hcme⟩
    · by_cases hbr : me - eps ≤ min (cursor + ml * (VIM_DURATIONS_YEARS x / VIM_TOTAL_YEARS)) me
      · rw [if_pos hbr] at hb2
        simp at hb2
      · rw [if_neg hbr] at hb2
        have hcc : cursor ≤ min (cursor + ml * (VIM_DURATIONS_YEARS x / VIM_TOTAL_YEARS)) me :=
          le_min (by linarith) hcme
        obtain ⟨hlo, hhi⟩ := ih _ (min_le_right _ _)
          (fun y hy => hd y (List.mem_cons_of_mem x hy)) b hb2
        exact ⟨le_trans hcc hlo, hhi⟩

theorem subdivideStep3_eq (out : List Block) (p : DashaPeriod) :
    subdivideStep 3 out p =
      (out ++ [mahaBlockOf p] ++ antarasOf p) ++
        ((out ++ [mahaBlockOf p] ++ antarasOf p).filter (antaraFilter p)).flatMap pratysOf := rfl


theorem rotationInv_step (out : List Block) (p : DashaPeriod)
    (hlord : p.planet.toLower ∈ VIM_SEQUENCE) (hse : p.start_jd ≤ p.end_jd)
    (hinv : rotationInv out) : rotationInv (subdivideStep 3 out p) := by
  obtain ⟨inv1, inv2⟩ := hinv
  rw [subdivideStep3_eq]
  have heps : (0 : ℚ) < 1 / 10 ^ 9 := by norm_num
  have hants_level : ∀ b ∈ antarasOf p, b.level = "antara" ∧
      b.parent = some p.planet.toLower ∧ b.lord ∈ rotateAt p.planet.toLower :=
    fun b hb => splitSpan_level _ _ _ _ _ _ _ b hb
  have hants_range : ∀ b ∈ antarasOf p,
      p.start_jd ≤ b.start_jd ∧ b.start_jd ≤ p.end_jd :=
    fun b hb => splitSpan_range _ _ _ _ _ (by linarith) _ _ hse
      (fun x hx => by
        have := vim_dur_ge6 x (rotateAt_mem _ x hx)
        linarith) b hb
  have hflat_level : ∀ c ∈ ((out ++ [mahaBlockOf p] ++ antarasOf p).filter
      (antaraFilter p)).flatMap pratysOf, c.level = "pratyantara" := by
    intro c hc
    obtain ⟨a, _, hcp⟩ := List.mem_flatMap.mp hc
    exact (splitSpan_level _ _ _ _ _ _ _ c hcp).1
  have hmono : ∀ x ∈ out,
      x ∈ (out ++ [mahaBlockOf p] ++ antarasOf p) ++
        ((out ++ [mahaBlockOf p] ++ antarasOf p).filter (antaraFilter p)).flatMap pratysOf := by
    intro x hx
    simp only [List.mem_append]
    exact Or.inl (Or.inl (Or.inl hx))
  have hants_mono : ∀ x ∈ antarasOf p,
      x ∈ (out ++ [mahaBlockOf p] ++ antarasOf p) ++
        ((out ++ [mahaBlockOf p] ++ antarasOf p).filter (antaraFilter p)).flatMap pratysOf := by
    intro x hx
    simp only [List.mem_append]
    exact Or.inl (Or.inr hx)
  have hfilter : ∀ a ∈ antarasOf p, antaraFilter p a = true := by
    intro a ha
    obtain ⟨hl, hp, _⟩ := hants_level a ha
    obtain ⟨hlo, hhi⟩ := hants_range a ha
    simp only [antaraFilter, hl, hp, Bool.and_eq_true, beq_iff_eq, decide_eq_true_eq]
    and_intros <;> first | trivial | linarith
  have hpra : ∀ a : Block, a.lord ∈ VIM_SEQUENCE →
      ∃ e0, (⟨"pratyantara", a.lord, some a.lord, a.start_jd, e0⟩ : Block) ∈ pratysOf a := by
    intro a hal
    obtain ⟨r2, hr2⟩ := rotateAt_head _ hal
    unfold pratysOf
    rw [hr2, splitSpan_cons]
    exact ⟨_, List.mem_cons_self _ _⟩
  constructor
  · intro b hb hbl
    have hcases : b ∈ out ∨ b = mahaBlockOf p ∨ b ∈ antarasOf p ∨
        b ∈ ((out ++ [mahaBlockOf p] ++ antarasOf p).filter (antaraFilter p)).flatMap pratysOf := by
      simp only [List.mem_append, List.mem_singleton] at hb
      tauto
    rcases hcases with hc1 | hc2 | hc3 | hc4
    · obtain ⟨a, ha, props⟩ := inv1 b hc1 hbl
      exact ⟨a, hmono a ha, props⟩
    · subst hc2
      obtain ⟨rest, hrot⟩ := rotateAt_head _ hlord
      have hmem0 : (⟨"antara", p.planet.toLower, some p.planet.toLower, p.start_jd,
          min (p.start_jd + (p.end_jd - p.start_jd) *
            (VIM_DURATIONS_YEARS p.planet.toLower / VIM_TOTAL_YEARS)) p.end_jd⟩ : Block)
          ∈ antarasOf p := by
        unfold antarasOf
        rw [hrot, splitSpan_cons]
        exact List.mem_cons_self _ _
      exact ⟨_, hants_mono _ hmem0, rfl, rfl, rfl, rfl⟩
    · have := (hants_level b hc3).1
      rw [this] at hbl
      simp at hbl
    · have := hflat_level b hc4
      rw [this] at hbl
      simp at hbl
  · intro a ha hal
    have hcases : a ∈ out ∨ a = mahaBlockOf p ∨ a ∈ antarasOf p ∨
        a ∈ ((out ++ [mahaBlockOf p] ++ antarasOf p).filter (antaraFilter p)).flatMap pratysOf := by
      simp only [List.mem_append, List.mem_singleton] at ha
      tauto
    rcases hcases with hc1 | hc2 | hc3 | hc4
    · obtain ⟨c, hc, props⟩ := inv2 a hc1 hal
      exact ⟨c, hmono c hc, props⟩
    · rw [hc2] at hal
      simp [mahaBlockOf] at hal
    · have halord : a.lord ∈ VIM_SEQUENCE :=
        rotateAt_mem _ _ (hants_level a hc3).2.2
      obtain ⟨e0, hc0⟩ := hpra a halord
      have hcf : (⟨"pratyantara", a.lord, some a.lord, a.start_jd, e0⟩ : Block)
          ∈ ((out ++ [mahaBlockOf p] ++ antarasOf p).filter (antaraFilter p)).flatMap pratysOf :=
        List.mem_flatMap.mpr ⟨a,
          List.mem_filter.mpr ⟨by
            simp only [List.mem_append]
            exact Or.inr hc3, hfilter a hc3⟩, hc0⟩
      refine ⟨⟨"pratyantara", a.lord, some a.lord, a.start_jd, e0⟩, ?_, rfl, rfl, rfl, rfl⟩
      simp only [List.mem_append]
      exact Or.inr hcf
    · have := hflat_level a hc4
      rw [this] at hal
      simp at hal

theorem subdivide_foldl_inv : ∀ (ps : List DashaPeriod) (out : List Block),
    (∀ p ∈ ps, p.planet.toLower ∈ VIM_SEQUENCE) →
    (∀ p ∈ ps, p.start_jd ≤ p.end_jd) →
    rotationInv out → rotationInv (ps.foldl (subdivideStep 3) out) := by
  intro ps
  induction ps with
  | nil => intro out _ _ h; exact h
  | cons p ps ih =>
    intro out h1 h2 h
    exact ih _ (fun q hq => h1 q (List.mem_cons_of_mem p hq))
      (fun q hq => h2 q (List.mem_cons_of_mem p hq))
      (rotationInv_step out p (h1 p (List.mem_cons_self p ps))
        (h2 p (List.mem_cons_self p ps)) h)

/-- Claim C1: in the level-3 hierarchy, every maha block's antara
sequence begins with the maha's own lord (the antara starting at the
maha's start has the maha's lord, with that lord as parent), and every
antara block's pratyantara sequence begins with that antara's own lord
(never the top-level lord), for any period list with valid lords and
ordered spans. -/
theorem subdivide_rotation_starts_at_own_lord (periods : List DashaPeriod)
    (h1 : ∀ p ∈ periods, p.planet.toLower ∈ VIM_SEQUENCE)
    (h2 : ∀ p ∈ periods, p.start_jd ≤ p.end_jd) :
    (∀ b ∈ subdivide_vimshottari periods 3, b.level = "maha" →
      ∃ a ∈ subdivide_vimshottari periods 3, a.level = "antara" ∧
        a.parent = some b.lord ∧ a.start_jd = b.start_jd ∧ a.lord = b.lord) ∧
    (∀ a ∈ subdivide_vimshottari periods 3, a.level = "antara" →
      ∃ c ∈ subdivide_vimshottari periods 3, c.level = "pratyantara" ∧
        c.parent = some a.lord ∧ c.start_jd = a.start_jd ∧ c.lord = a.lord) :=
  subdivide_foldl_inv periods [] h1 h2
    ⟨fun b hb => absurd hb (List.not_mem_nil b), fun a ha => absurd ha (List.not_mem_nil a)⟩

theorem subdivide_rotation_witness :
    ((∀ p ∈ periodsKetu0, p.planet.toLower ∈ VIM_SEQUENCE) ∧
        (∀ p ∈ periodsKetu0, p.start_jd ≤ p.end_jd)) ∧
      ((∀ b ∈ subdivide_vimshottari periodsKetu0 3, b.level = "maha" →
        ∃ a ∈ subdivide_vimshottari periodsKetu0 3, a.level = "antara" ∧
          a.parent = some b.lord ∧ a.start_jd = b.start_jd ∧ a.lord = b.lord) ∧
      (∀ a ∈ subdivide_vimshottari periodsKetu0 3, a.level = "antara" →
        ∃ c ∈ subdivide_vimshottari periodsKetu0 3, c.level = "pratyantara" ∧
          c.parent = some a.lord ∧ c.start_jd = a.start_jd ∧ c.lord = a.lord)) :=
  ⟨⟨by decide!, by decide!⟩,
    subdivide_rotation_starts_at_own_lord periodsKetu0 (by decide!) (by decide!)⟩


theorem addW_apply (w : ℚ) (h : String) :
    ∀ (hs : List String) (m : String → ℚ), addW m hs w h = m h + w * hs.count h := by
  intro hs
  induction hs with
  | nil => intro m; simp [addW]
  | cons hh t ih =>
    intro m
    show addW (fun k => if k = hh then m k + w else m k) t w h = _
    rw [ih]
    by_cases hcase : h = hh
    · subst hcase
      simp only [if_pos rfl, List.count_cons_self]
      push_cast
      ring
    · have : (hh == h) = false := by
        simp only [beq_eq_false_iff_ne, ne_eq]
        exact fun hx => hcase hx.symm
      simp only [if_neg hcase, List.count_cons, this, if_false]
      push_cast
      ring

theorem count_singleton_ite (x h : String) :
    ([x] : List String).count h = if h = x then 1 else 0 := by
  by_cases hc : h = x
  · subst hc; simp
  · have : (x == h) = false := by
      simp only [beq_eq_false_iff_ne, ne_eq]
      exact fun hx => hc hx.symm
    simp [List.count_singleton, this, hc]

theorem count_nodup_ite (l : List String) (h : String) (hnd : l.Nodup) :
    l.count h = if h ∈ l then 1 else 0 := by
  by_cases hm : h ∈ l
  · rw [if_pos hm]
    exact List.count_eq_one_of_mem hnd hm
  · rw [if_neg hm]
    exact List.count_eq_zero_of_not_mem hm

theorem owned_nodup (natal : NatalContext) (pl : String)
    (hnd : (natal.house_map.map Prod.fst).Nodup) :
    (planet_owned_houses natal pl).Nodup := by
  unfold planet_owned_houses
  exact ((List.filter_sublist _).map Prod.fst).nodup hnd

theorem vim_getd_ne_empty : ∀ m, m < 9 → VIM_SEQUENCE.getD m "" ≠ "" := by decide

theorem star_lord_at_ne_empty (lon : ℚ) : star_lord_at lon ≠ "" :=
  vim_getd_ne_empty _ (Nat.mod_lt _ (by norm_num))

theorem signs_getd_mem : ∀ m, m < 12 → SIGNS.getD m "" ∈ SIGNS := by decide

theorem sign_from_longitude_mem (lon : ℚ) : sign_from_longitude lon ∈ SIGNS := by
  unfold sign_from_longitude
  apply signs_getd_mem
  have h0 := normalize_deg_nonneg lon
  have h1 := normalize_deg_lt lon
  have hfl : ⌊normalize_deg lon / 30⌋ < 12 := by
    rw [Int.floor_lt]
    push_cast
    linarith
  have hfl0 : (0 : ℤ) ≤ ⌊normalize_deg lon / 30⌋ :=
    Int.floor_nonneg.mpr (by positivity)
  omega

theorem rulers_ne_empty : ∀ s ∈ SIGNS, RULERS s ≠ "" := by decide

/-- Claim C5: every entry of `planet_significators` is the house-weight
map of one body, and that map is exactly the additive accumulation of
3 on the star-lord's placement house and each of its owned houses, 2 on
the body's own placement house and owned houses, and 1 on the sign-lord's
placement house and owned houses (house-cusp keys assumed distinct, as a
Python dict guarantees; both lords assumed present among the bodies, as
`compute_natal` guarantees). -/
theorem planet_significators_formula (natal : NatalContext)
    (hnd : (natal.house_map.map Prod.fst).Nodup) :
    ∀ pr ∈ planet_significators natal, ∃ p lon,
      (p, lon) ∈ natal.planet_longitudes ∧ pr.1 = p.toLower ∧
      ∀ s_lon s2_lon,
        List.lookup (star_lord_at lon) natal.planet_longitudes = some s_lon →
        List.lookup (RULERS (sign_from_longitude lon)) natal.planet_longitudes = some s2_lon →
        ∀ h, pr.2 h =
          3 * ((if h = toString (house_num_of_lon s_lon natal.house_cusps_deg) then 1 else 0)
              + (if h ∈ planet_owned_houses natal (star_lord_at lon) then 1 else 0)) +
          2 * ((if h = toString (house_num_of_lon lon natal.house_cusps_deg) then 1 else 0)
              + (if h ∈ planet_owned_houses natal p.toLower then 1 else 0)) +
          1 * ((if h = toString (house_num_of_lon s2_lon natal.house_cusps_deg) then 1 else 0)
              + (if h ∈ planet_owned_houses natal (RULERS (sign_from_longitude lon)) then 1 else 0)) := by
  intro pr hpr
  obtain ⟨pl, hpl, hfr⟩ := List.mem_map.mp hpr
  refine ⟨pl.1, pl.2, hpl, by rw [← hfr], ?_⟩
  intro s_lon s2_lon hlk1 hlk2 h
  rw [← hfr]
  show wmapFor natal pl.1.toLower pl.2 h = _
  have hstar := star_lord_at_ne_empty pl.2
  have hsign := rulers_ne_empty _ (sign_from_longitude_mem pl.2)
  simp only [wmapFor]
  rw [hlk1, hlk2, if_pos hstar, if_pos hsign]
  simp only [addW_apply]
  rw [count_singleton_ite, count_singleton_ite, count_singleton_ite,
    count_nodup_ite _ _ (owned_nodup natal _ hnd),
    count_nodup_ite _ _ (owned_nodup natal _ hnd),
    count_nodup_ite _ _ (owned_nodup natal _ hnd)]
  simp only [apply_ite (fun n : ℕ => (n : ℚ)), Nat.cast_one, Nat.cast_zero]
  ring

theorem planet_significators_formula_witness :
    (natalFix.house_map.map Prod.fst).Nodup ∧
      (∀ pr ∈ planet_significators natalFix, ∃ p lon,
        (p, lon) ∈ natalFix.planet_longitudes ∧ pr.1 = p.toLower ∧
        ∀ s_lon s2_lon,
          List.lookup (star_lord_at lon) natalFix.planet_longitudes = some s_lon →
          List.lookup (RULERS (sign_from_longitude lon)) natalFix.planet_longitudes = some s2_lon →
          ∀ h, pr.2 h =
            3 * ((if h = toString (house_num_of_lon s_lon natalFix.house_cusps_deg) then 1 else 0)
                + (if h ∈ planet_owned_houses natalFix (star_lord_at lon) then 1 else 0)) +
            2 * ((if h = toString (house_num_of_lon lon natalFix.house_cusps_deg) then 1 else 0)
                + (if h ∈ planet_owned_houses natalFix p.toLower then 1 else 0)) +
            1 * ((if h = toString (house_num_of_lon s2_lon natalFix.house_cusps_deg) then 1 else 0)
                + (if h ∈ planet_owned_houses natalFix (RULERS (sign_from_longitude lon))
                    then 1 else 0))) :=
  ⟨by decide, planet_significators_formula natalFix (by decide)⟩


theorem mem_insertSorted {α : Type} (le : α → α → Bool) (x a : α) :
    ∀ l, a ∈ insertSorted le x l ↔ a = x ∨ a ∈ l := by
  intro l
  induction l with
  | nil => simp [insertSorted]
  | cons y ys ih =>
    simp only [insertSorted]
    split
    · simp [List.mem_cons]
    · simp only [List.mem_cons, ih]
      tauto

theorem mem_pySort {α : Type} (le : α → α → Bool) (a : α) :
    ∀ l, a ∈ pySort le l ↔ a ∈ l := by
  intro l
  induction l with
  | nil => simp [pySort]
  | cons x xs ih =>
    simp only [pySort, mem_insertSorted, List.mem_cons, ih]

theorem length_insertSorted {α : Type} (le : α → α → Bool) (x : α) :
    ∀ l, (insertSorted le x l).length = l.length + 1 := by
  intro l
  induction l with
  | nil => rfl
  | cons y ys ih =>
    simp only [insertSorted]
    split
    · rfl
    · simp [ih]

theorem length_pySort {α : Type} (le : α → α → Bool) :
    ∀ l : List α, (pySort le l).length = l.length := by
  intro l
  induction l with
  | nil => rfl
  | cons x xs ih => simp [pySort, length_insertSorted, ih]

theorem mkRowFor_score (natal : NatalContext) (pol : EventPolicy)
    (sig : List (String × (String → ℚ))) (t : Block × Block × Option Block) (r : Row)
    (h : mkRowFor natal pol sig t = some r) :
    r.score = pyRound
      (3 / 10 * score_planet_for_event sig r.maha.lord pol.houses_pos pol.houses_neg
          pol.focus_planets
        + 6 / 10 * score_planet_for_event sig r.antara.lord pol.houses_pos pol.houses_neg
            pol.focus_planets
        + 1 * (match r.praty with
               | some p => score_planet_for_event sig p.lord pol.houses_pos pol.houses_neg
                   pol.focus_planets
               | none => 0)
        + (match r.praty with | some _ => 2 / 10 | none => 0)) 3 := by
  simp only [mkRowFor] at h
  split_ifs at h with hage
  obtain rfl := (Option.some_inj.mp h).symm
  rfl

/-- Claim C7 (amended): every returned row's score is the formula
`0.3*S(maha lord) + 0.6*S(antara lord) + 1.0*S(praty lord) + 0.2` when
the pratyantara is present, rounded to 3 decimals, where `S` is
`score_planet_for_event` — the positive-house sum minus 0.8 times the
negative-house sum plus HALF the policy's focus weight for the lord. -/
theorem select_dba_row_score (natal : NatalContext) (periods : List DashaPeriod)
    (question direction : String) (anchor_jd : Option ℚ) (r : Row)
    (hr : r ∈ select_dba_windows natal periods question direction anchor_jd) :
    r.score = pyRound
      (3 / 10 * score_planet_for_event (planet_significators natal) r.maha.lord
          (policyFor question).houses_pos (policyFor question).houses_neg
          (policyFor question).focus_planets
        + 6 / 10 * score_planet_for_event (planet_significators natal) r.antara.lord
            (policyFor question).houses_pos (policyFor question).houses_neg
            (policyFor question).focus_planets
        + 1 * (match r.praty with
               | some p => score_planet_for_event (planet_significators natal) p.lord
                   (policyFor question).houses_pos (policyFor question).houses_neg
                   (policyFor question).focus_planets
               | none => 0)
        + (match r.praty with | some _ => 2 / 10 | none => 0)) 3 := by
  have hrows : r ∈ (tripletsOf (subdivide_vimshottari periods 3)).filterMap
      (mkRowFor natal (policyFor question) (planet_significators natal)) := by
    cases anchor_jd with
    | none =>
      replace hr := List.mem_of_mem_take hr
      obtain ⟨pr, hpr, hsnd⟩ := List.mem_map.mp hr
      rw [mem_pySort] at hpr
      obtain ⟨r0, hr0, hpair⟩ := List.mem_map.mp hpr
      rw [← hsnd, ← hpair]
      exact hr0
    | some a =>
      replace hr := List.mem_of_mem_take hr
      obtain ⟨pr, hpr, hsnd⟩ := List.mem_map.mp hr
      rw [mem_pySort] at hpr
      obtain ⟨r0, hr0, hpair⟩ := List.mem_map.mp hpr
      rw [← hsnd, ← hpair]
      exact hr0
  obtain ⟨t, _, hft⟩ := List.mem_filterMap.mp hrows
  exact mkRowFor_score natal (policyFor question) (planet_significators natal) t r hft


/-- Claim C7 (counterexample): the first two rows of a concrete query
both carry a pratyantara, so under the claim the fixed
bottom-present bonus cancels in their score difference, which would then
equal the difference of the claimed formulas with the policy's focus
bonus at full weight; it does not (the code rounds to 3 decimals and
applies only half the focus weight): the scores differ by 27/10 while
the claimed formulas differ by 3. -/
theorem select_dba_score_ne_claim :
    (select_dba_windows natalFix periodsKetu7000 "marriage" "nearest" none).take 2
        = [rowFixA, rowFixB] ∧
      rowFixA.praty.isSome = true ∧ rowFixB.praty.isSome = true ∧
      rowFixA.score - rowFixB.score ≠
        3 / 10 * (claimScoreS (planet_significators natalFix) rowFixA.maha.lord
              (policyFor "marriage").houses_pos (policyFor "marriage").houses_neg
              (policyFor "marriage").focus_planets
            - claimScoreS (planet_significators natalFix) rowFixB.maha.lord
              (policyFor "marriage").houses_pos (policyFor "marriage").houses_neg
              (policyFor "marriage").focus_planets)
          + 6 / 10 * (claimScoreS (planet_significators natalFix) rowFixA.antara.lord
              (policyFor "marriage").houses_pos (policyFor "marriage").houses_neg
              (policyFor "marriage").focus_planets
            - claimScoreS (planet_significators natalFix) rowFixB.antara.lord
              (policyFor "marriage").houses_pos (policyFor "marriage").houses_neg
              (policyFor "marriage").focus_planets)
          + 1 * (claimScoreS (planet_significators natalFix)
              ((rowFixA.praty.getD rowFixA.antara)).lord
              (policyFor "marriage").houses_pos (policyFor "marriage").houses_neg
              (policyFor "marriage").focus_planets
            - claimScoreS (planet_significators natalFix)
              ((rowFixB.praty.getD rowFixB.antara)).lord
              (policyFor "marriage").houses_pos (policyFor "marriage").houses_neg
              (policyFor "marriage").focus_planets) := by
  decide!

theorem select_dba_row_score_witness :
    rowFixA ∈ select_dba_windows natalFix periodsKetu7000 "marriage" "nearest" none ∧
      rowFixA.score = pyRound
        (3 / 10 * score_planet_for_event (planet_significators natalFix) rowFixA.maha.lord
            (policyFor "marriage").houses_pos (policyFor "marriage").houses_neg
            (policyFor "marriage").focus_planets
          + 6 / 10 * score_planet_for_event (planet_significators natalFix) rowFixA.antara.lord
              (policyFor "marriage").houses_pos (policyFor "marriage").houses_neg
              (policyFor "marriage").focus_planets
          + 1 * (match rowFixA.praty with
                 | some p => score_planet_for_event (planet_significators natalFix) p.lord
                     (policyFor "marriage").houses_pos (policyFor "marriage").houses_neg
                     (policyFor "marriage").focus_planets
                 | none => 0)
          + (match rowFixA.praty with | some _ => 2 / 10 | none => 0)) 3 :=
  ⟨by decide!,
    select_dba_row_score natalFix periodsKetu7000 "marriage" "nearest" none rowFixA (by decide!)⟩


theorem maxByStart_mem : ∀ (cs : List Block) (c0 : Block), maxByStart c0 cs ∈ c0 :: cs := by
  intro cs
  induction cs with
  | nil => intro c0; exact List.mem_cons_self _ _
  | cons x t ih =>
    intro c0
    show maxByStart (if c0.start_jd < x.start_jd then x else c0) t ∈ c0 :: x :: t
    have h := ih (if c0.start_jd < x.start_jd then x else c0)
    rcases List.mem_cons.mp h with h1 | h2
    · rw [h1]
      split_ifs
      · exact List.mem_cons_of_mem _ (List.mem_cons_self _ _)
      · exact List.mem_cons_self _ _
    · exact List.mem_cons_of_mem _ (List.mem_cons_of_mem _ h2)

theorem rankAndChoose_mem (natal : NatalContext) (question direction : String)
    (anchor_jd : ℚ) (subs pool : List Block) (hpool : pool ≠ []) :
    ∃ B, rankAndChoose natal question direction anchor_jd subs pool = some B ∧ B ∈ pool := by
  have hsub : ∀ x ∈ (pySort (fun (a b : (ℚ × ℚ × ℚ) × Block) => lexLe3 a.1 b.1)
      (pool.map (fun s =>
        ((-score_subperiod natal s question, |s.start_jd - anchor_jd|, s.start_jd), s)))).map
        Prod.snd, x ∈ pool := by
    intro x hx
    obtain ⟨pr, hpr, hsnd⟩ := List.mem_map.mp hx
    rw [mem_pySort] at hpr
    obtain ⟨s, hs, hpair⟩ := List.mem_map.mp hpr
    rw [← hsnd, ← hpair]
    exact hs
  have hlen : ((pySort (fun (a b : (ℚ × ℚ × ℚ) × Block) => lexLe3 a.1 b.1)
      (pool.map (fun s =>
        ((-score_subperiod natal s question, |s.start_jd - anchor_jd|, s.start_jd), s)))).map
        Prod.snd).length = pool.length := by
    rw [List.length_map, length_pySort, List.length_map]
  obtain ⟨r0, rest, hr⟩ : ∃ r0 rest, (pySort (fun (a b : (ℚ × ℚ × ℚ) × Block) => lexLe3 a.1 b.1)
      (pool.map (fun s =>
        ((-score_subperiod natal s question, |s.start_jd - anchor_jd|, s.start_jd), s)))).map
        Prod.snd = r0 :: rest := by
    cases hm : (pySort (fun (a b : (ℚ × ℚ × ℚ) × Block) => lexLe3 a.1 b.1)
        (pool.map (fun s =>
          ((-score_subperiod natal s question, |s.start_jd - anchor_jd|, s.start_jd), s)))).map
          Prod.snd with
    | nil =>
      rw [hm] at hlen
      exact absurd (List.length_eq_zero.mp hlen.symm) hpool
    | cons a l => exact ⟨a, l, rfl⟩
  have hr0 : r0 ∈ pool := hsub r0 (hr ▸ List.mem_cons_self r0 rest)
  unfold rankAndChoose
  rw [hr]
  by_cases hdir : (direction == "past") = true
  · rw [if_pos hdir]
    cases hclose : (r0 :: rest).filter (fun s =>
        decide (|score_subperiod natal s question - score_subperiod natal r0 question|
          < 1 / 10 ^ 6)) with
    | nil =>
      refine ⟨r0, ?_, hr0⟩
      show (match (r0 :: rest).filter (fun s =>
          decide (|score_subperiod natal s question - score_subperiod natal r0 question|
            < 1 / 10 ^ 6)) with
        | [] => some r0
        | c0 :: cs => some (maxByStart c0 cs)) = some r0
      rw [hclose]
    | cons c0 cs =>
      refine ⟨maxByStart c0 cs, ?_, ?_⟩
      · show (match (r0 :: rest).filter (fun s =>
            decide (|score_subperiod natal s question - score_subperiod natal r0 question|
              < 1 / 10 ^ 6)) with
          | [] => some r0
          | c0 :: cs => some (maxByStart c0 cs)) = some (maxByStart c0 cs)
        rw [hclose]
      · have hmem : maxByStart c0 cs ∈ c0 :: cs := maxByStart_mem cs c0
        rw [← hclose] at hmem
        have := (List.mem_filter.mp hmem).1
        exact hsub _ (hr ▸ this)
  · rw [if_neg (by simpa using hdir)]
    exact ⟨r0, rfl, hr0⟩

/-- Claim C8 (amended): when the direction and age filters empty the
pool, `predict_event` never fails for a non-empty hierarchy: it falls
back first to `pe_relax_pool` — which drops the age floor but keeps the
direction constraint only for `future` (for `past` the direction filter
is dropped at the same time) — and then to the whole hierarchy.  The
response reports nothing about which relaxation was applied. -/
theorem predict_event_relaxed (natal : NatalContext) (periods : List DashaPeriod)
    (question direction : String) (anchor_jd : ℚ)
    (hne : subdivide_vimshottari periods 3 ≠ []) :
    ∃ B, predict_event_select natal periods question direction anchor_jd = some B ∧
      B ∈ subdivide_vimshottari periods 3 ∧
      (pe_age_pool natal question
          (pe_dir_pool (subdivide_vimshottari periods 3) direction anchor_jd) ≠ [] →
        B ∈ pe_age_pool natal question
          (pe_dir_pool (subdivide_vimshottari periods 3) direction anchor_jd)) ∧
      (pe_age_pool natal question
          (pe_dir_pool (subdivide_vimshottari periods 3) direction anchor_jd) = [] →
        pe_relax_pool (subdivide_vimshottari periods 3) direction anchor_jd ≠ [] →
        B ∈ pe_relax_pool (subdivide_vimshottari periods 3) direction anchor_jd) := by
  have hdirsub : ∀ x ∈ pe_dir_pool (subdivide_vimshottari periods 3) direction anchor_jd,
      x ∈ subdivide_vimshottari periods 3 := by
    intro x hx
    unfold pe_dir_pool at hx
    split_ifs at hx with h1 h2
    · exact (List.mem_filter.mp hx).1
    · exact (List.mem_filter.mp hx).1
    · exact hx
  by_cases h1 : pe_age_pool natal question
      (pe_dir_pool (subdivide_vimshottari periods 3) direction anchor_jd) = []
  · by_cases h2 : pe_relax_pool (subdivide_vimshottari periods 3) direction anchor_jd = []
    · obtain ⟨B, hB, hBm⟩ := rankAndChoose_mem natal question direction anchor_jd
        (subdivide_vimshottari periods 3) (subdivide_vimshottari periods 3) hne
      refine ⟨B, ?_, hBm, fun hc => absurd h1 hc, fun _ hc => absurd h2 hc⟩
      have e1 : (pe_age_pool natal question
          (pe_dir_pool (subdivide_vimshottari periods 3) direction anchor_jd)).isEmpty
          = true := List.isEmpty_iff.mpr h1
      have e2 : (pe_relax_pool (subdivide_vimshottari periods 3) direction anchor_jd).isEmpty
          = true := List.isEmpty_iff.mpr h2
      show rankAndChoose natal question direction anchor_jd _
        (if (pe_age_pool natal question
            (pe_dir_pool (subdivide_vimshottari periods 3) direction anchor_jd)).isEmpty then
          if (pe_relax_pool (subdivide_vimshottari periods 3) direction anchor_jd).isEmpty then
            subdivide_vimshottari periods 3
          else pe_relax_pool (subdivide_vimshottari periods 3) direction anchor_jd
        else pe_age_pool natal question
          (pe_dir_pool (subdivide_vimshottari periods 3) direction anchor_jd)) = some B
      rw [e1, e2]
      simpa using hB
    · obtain ⟨B, hB, hBm⟩ := rankAndChoose_mem natal question direction anchor_jd
        (subdivide_vimshottari periods 3)
        (pe_relax_pool (subdivide_vimshottari periods 3) direction anchor_jd) h2
      refine ⟨B, ?_, (List.mem_filter.mp hBm).1, fun hc => absurd h1 hc, fun _ _ => hBm⟩
      have e1 : (pe_age_pool natal question
          (pe_dir_pool (subdivide_vimshottari periods 3) direction anchor_jd)).isEmpty
          = true := List.isEmpty_iff.mpr h1
      have e2 : (pe_relax_pool (subdivide_vimshottari periods 3) direction anchor_jd).isEmpty
          = false := List.isEmpty_eq_false.mpr h2
      show rankAndChoose natal question direction anchor_jd _
        (if (pe_age_pool natal question
            (pe_dir_pool (subdivide_vimshottari periods 3) direction anchor_jd)).isEmpty then
          if (pe_relax_pool (subdivide_vimshottari periods 3) direction anchor_jd).isEmpty then
            subdivide_vimshottari periods 3
          else pe_relax_pool (subdivide_vimshottari periods 3) direction anchor_jd
        else pe_age_pool natal question
          (pe_dir_pool (subdivide_vimshottari periods 3) direction anchor_jd)) = some B
      rw [e1, e2]
      simpa using hB
  · obtain ⟨B, hB, hBm⟩ := rankAndChoose_mem natal question direction anchor_jd
      (subdivide_vimshottari periods 3)
      (pe_age_pool natal question
        (pe_dir_pool (subdivide_vimshottari periods 3) direction anchor_jd)) h1
    refine ⟨B, ?_, hdirsub B (List.mem_filter.mp hBm).1, fun _ => hBm,
      fun hc => absurd hc h1⟩
    have e1 : (pe_age_pool natal question
        (pe_dir_pool (subdivide_vimshottari periods 3) direction anchor_jd)).isEmpty
        = false := List.isEmpty_eq_false.mpr h1
    show rankAndChoose natal question direction anchor_jd _
      (if (pe_age_pool natal question
          (pe_dir_pool (subdivide_vimshottari periods 3) direction anchor_jd)).isEmpty then
        if (pe_relax_pool (subdivide_vimshottari periods 3) direction anchor_jd).isEmpty then
          subdivide_vimshottari periods 3
        else pe_relax_pool (subdivide_vimshottari periods 3) direction anchor_jd
      else pe_age_pool natal question
        (pe_dir_pool (subdivide_vimshottari periods 3) direction anchor_jd)) = some B
    rw [e1]
    simpa using hB

/-- Claim C8 (counterexample): a concrete `past` query where the age
floor empties the pool although direction-respecting candidates exist
(blocks starting at or before the anchor).  Under the claim's fixed
order — drop the age filter first, keep the direction filter — the
answer would start at or before the anchor; the code instead drops age
and direction together for `past` and returns a block starting after the
anchor. -/
theorem predict_event_past_drops_direction :
    (∀ s ∈ subdivide_vimshottari periodsKetu0 3,
        ¬(s.start_jd ≤ 100 ∧
          AGE_MIN "marriage" ≤ age_years_at_jd natalFix.utc_birth_jd s.start_jd)) ∧
      (∃ s ∈ subdivide_vimshottari periodsKetu0 3, s.start_jd ≤ 100) ∧
      predict_event_select natalFix periodsKetu0 "marriage" "past" 100 =
        some ⟨"pratyantara", "venus", some "venus", 2386251 / 16000, 3522561 / 16000⟩ ∧
      (100 : ℚ) < 2386251 / 16000 := by
  decide!

theorem predict_event_relaxed_witness :
    subdivide_vimshottari periodsKetu0 3 ≠ [] ∧
      (∃ B, predict_event_select natalFix periodsKetu0 "marriage" "past" 100 = some B ∧
        B ∈ subdivide_vimshottari periodsKetu0 3 ∧
        (pe_age_pool natalFix "marriage"
            (pe_dir_pool (subdivide_vimshottari periodsKetu0 3) "past" 100) ≠ [] →
          B ∈ pe_age_pool natalFix "marriage"
            (pe_dir_pool (subdivide_vimshottari periodsKetu0 3) "past" 100)) ∧
        (pe_age_pool natalFix "marriage"
            (pe_dir_pool (subdivide_vimshottari periodsKetu0 3) "past" 100) = [] →
          pe_relax_pool (subdivide_vimshottari periodsKetu0 3) "past" 100 ≠ [] →
          B ∈ pe_relax_pool (subdivide_vimshottari periodsKetu0 3) "past" 100)) :=
  ⟨by decide!,
    predict_event_relaxed natalFix periodsKetu0 "marriage" "past" 100 (by decide!)⟩

end Vedic
